import Mathlib

/-!
Type-erasure examples: `AnyCup<Liquid>` and `object_t`.

A shallow embedding of `src/cpp/main.cpp` and `src/cpp/sean-anyfunction.cpp`.

Both programs pair a `std::any` slot with `std::function` closures that capture a raw
pointer to the object held by the slot.  To speak about that pointer, objects held by a
`std::any` (and the few named variables the properties mention) live in an explicit store
of cells; a cell is live from its allocation until it is freed, addresses are never reused,
and an access through a null pointer, through a pointer to a freed cell, or at the wrong
type has no defined result (`none`).  A lambda is its capture list together with the
template arguments it was instantiated with; calling it runs the lambda body.

`float` is IEEE 754 binary32 with round-to-nearest-even, embedded exactly.
-/

set_option maxRecDepth 8000

namespace TypeErasure

/-! ## binary32 arithmetic -/

/-- A binary32 value.  Every finite binary32 number is an integer multiple of `2^(-149)`:
`finite neg m` is `(-1)^neg * m * 2^(-149)`. -/
inductive F32 where
  | finite (neg : Bool) (m : Nat)
  | inf (neg : Bool)
  | nan
  deriving DecidableEq, Repr

/-- Quotient `a / b` rounded to the nearest integer, ties to even. -/
def roundDivEven (a b : Nat) : Nat :=
  let q := a / b
  let r := a % b
  if b < 2 * r ∨ (2 * r = b ∧ q % 2 = 1) then q + 1 else q

/-- The number of low bits to drop from `q` to leave at most 24 significant bits, counted
from `k`. -/
def expShift : Nat → Nat → Nat → Nat
  | 0, _, k => k
  | fuel + 1, q, k => if q < 2 ^ 24 then k else expShift fuel (q / 2) (k + 1)

/-- The binary32 value nearest to `(-1)^neg * (a / b) * 2^(-149)` (24 significant bits,
ties to even, overflow to infinity). -/
def F32.round (neg : Bool) (a b : Nat) : F32 :=
  let q0 := a / b
  let k := expShift 255 q0 0
  let m := roundDivEven a (b * 2 ^ k) * 2 ^ k
  if 2 ^ 128 ≤ m / 2 ^ 149 then F32.inf neg else F32.finite neg m

/-- The value of a decimal literal `num / den` with suffix `f`. -/
def F32.lit (num den : Nat) : F32 :=
  F32.round false (num * 2 ^ 149) den

def F32.neg : F32 → F32
  | .finite s m => .finite (!s) m
  | .inf s => .inf (!s)
  | .nan => .nan

def F32.add : F32 → F32 → F32
  | .nan, _ => .nan
  | _, .nan => .nan
  | .inf s, .inf t => if s = t then .inf s else .nan
  | .inf s, .finite _ _ => .inf s
  | .finite _ _, .inf t => .inf t
  | .finite s a, .finite t b =>
    if s = t then F32.round s (a + b) 1
    else if a = b then .finite false 0
    else if b < a then F32.round s (a - b) 1
    else F32.round t (b - a) 1

def F32.sub (x y : F32) : F32 :=
  F32.add x (F32.neg y)

/-! ## `main.cpp`: liquids and cups -/

/-- What the cups use of a liquid type: the members the concept `Liquid` requires and the
public data member `temperature`, which `fill` reads and assigns.  `getTemperature` returns
the data member; assigning the data member changes it and nothing `getColor` depends on. -/
class Liquid (L : Type) where
  getTemperature : L → F32
  getViscosity : L → F32
  getColor : L → String
  temperature : L → F32
  setTemperature : L → F32 → L
  getTemperature_eq : ∀ l, getTemperature l = temperature l
  temperature_set : ∀ l t, temperature (setTemperature l t) = t
  getColor_set : ∀ l t, getColor (setTemperature l t) = getColor l

structure Coffee where
  temperature : F32
  deriving DecidableEq, Repr

def Coffee.getViscosity (_ : Coffee) : F32 :=
  F32.lit 34 10

def Coffee.getColor (_ : Coffee) : String :=
  "black"

def Coffee.getTemperature (c : Coffee) : F32 :=
  c.temperature

structure Milk where
  temperature : F32
  deriving DecidableEq, Repr

def Milk.getViscosity (_ : Milk) : F32 :=
  F32.lit 22 10

def Milk.getColor (_ : Milk) : String :=
  "white"

def Milk.getTemperature (m : Milk) : F32 :=
  m.temperature

instance : Liquid Coffee where
  getTemperature := Coffee.getTemperature
  getViscosity := Coffee.getViscosity
  getColor := Coffee.getColor
  temperature := Coffee.temperature
  setTemperature := fun c t => { c with temperature := t }
  getTemperature_eq := fun _ => rfl
  temperature_set := fun _ _ => rfl
  getColor_set := fun _ _ => rfl

instance : Liquid Milk where
  getTemperature := Milk.getTemperature
  getViscosity := Milk.getViscosity
  getColor := Milk.getColor
  temperature := Milk.temperature
  setTemperature := fun m t => { m with temperature := t }
  getTemperature_eq := fun _ => rfl
  temperature_set := fun _ _ => rfl
  getColor_set := fun _ _ => rfl

structure CeramicCup (L : Type) where
  liquid : L
  deriving DecidableEq, Repr

def CeramicCup.getLiquid {L : Type} (self : CeramicCup L) : L :=
  self.liquid

/-- `this->liquid = liquid; this->liquid.temperature -= 1.0f;` -/
def CeramicCup.fill {L : Type} [Liquid L] (_self : CeramicCup L) (liquid : L) : CeramicCup L :=
  let self1 : CeramicCup L := ⟨liquid⟩
  ⟨Liquid.setTemperature self1.liquid (F32.sub (Liquid.temperature self1.liquid) (F32.lit 1 1))⟩

structure PlasticCup (L : Type) where
  liquid : L
  deriving DecidableEq, Repr

def PlasticCup.getLiquid {L : Type} (self : PlasticCup L) : L :=
  self.liquid

/-- `this->liquid = liquid; this->liquid.temperature -= 10.0f;` -/
def PlasticCup.fill {L : Type} [Liquid L] (_self : PlasticCup L) (liquid : L) : PlasticCup L :=
  let self1 : PlasticCup L := ⟨liquid⟩
  ⟨Liquid.setTemperature self1.liquid (F32.sub (Liquid.temperature self1.liquid) (F32.lit 10 1))⟩

/-! ## The store -/

abbrev Addr := Nat

/-- Cells in allocation order; a freed cell is `none`. -/
structure Store (α : Type) where
  cells : List (Option α)
  deriving DecidableEq, Repr

namespace Store

variable {α : Type}

def empty : Store α :=
  ⟨[]⟩

/-- A new cell, at an address not used before. -/
def alloc (h : Store α) (v : α) : Addr × Store α :=
  (h.cells.length, ⟨h.cells ++ [some v]⟩)

/-- The object at `p`, when `p` is live. -/
def read (h : Store α) (p : Addr) : Option α :=
  (h.cells.get? p).join

/-- Assignment to the object at `p`, defined when `p` is live. -/
def write (h : Store α) (p : Addr) (v : α) : Option (Store α) :=
  match h.read p with
  | none => none
  | some _ => some ⟨h.cells.set p (some v)⟩

/-- End of the lifetime of the object at `p`. -/
def free (h : Store α) (p : Addr) : Store α :=
  ⟨h.cells.set p none⟩

/-- Dereference of a possibly null pointer. -/
def load (h : Store α) (ptr : Option Addr) : Option α :=
  match ptr with
  | none => none
  | some p => h.read p

end Store

/-! ## `main.cpp`: `AnyCup` -/

/-- The types `AnyCup`'s constructor template is instantiated with. -/
inductive CupKind where
  | CeramicCup
  | PlasticCup
  deriving DecidableEq, Repr

/-- An object as a `std::any` holds it: the value together with its dynamic type. -/
inductive CupObj (L : Type) where
  | ceramic (c : CeramicCup L)
  | plastic (c : PlasticCup L)
  deriving DecidableEq, Repr

def CupObj.kind {L : Type} : CupObj L → CupKind
  | .ceramic _ => .CeramicCup
  | .plastic _ => .PlasticCup

/-- Access to a cell as a `CeramicCup<L>`. -/
def CupObj.asCeramic {L : Type} : CupObj L → Option (CeramicCup L)
  | .ceramic c => some c
  | .plastic _ => none

/-- Access to a cell as a `PlasticCup<L>`. -/
def CupObj.asPlastic {L : Type} : CupObj L → Option (PlasticCup L)
  | .ceramic _ => none
  | .plastic c => some c

/-- The closure `[cupPtr]() { return cupPtr->getLiquid(); }` instantiated at `CupType`. -/
structure GetLiquidLambda where
  CupType : CupKind
  cupPtr : Option Addr
  deriving DecidableEq, Repr

/-- The closure `[cupPtr](LiquidType liquid) mutable { cupPtr->fill(liquid); }`
instantiated at `CupType`. -/
structure FillLambda where
  CupType : CupKind
  cupPtr : Option Addr
  deriving DecidableEq, Repr

def GetLiquidLambda.call {L : Type} (f : GetLiquidLambda) (h : Store (CupObj L)) : Option L :=
  match f.CupType with
  | .CeramicCup => ((h.load f.cupPtr).bind CupObj.asCeramic).map CeramicCup.getLiquid
  | .PlasticCup => ((h.load f.cupPtr).bind CupObj.asPlastic).map PlasticCup.getLiquid

def FillLambda.call {L : Type} [Liquid L] (f : FillLambda) (liquid : L)
    (h : Store (CupObj L)) : Option (Store (CupObj L)) :=
  match f.cupPtr with
  | none => none
  | some p =>
    match f.CupType with
    | .CeramicCup =>
      ((h.read p).bind CupObj.asCeramic).bind fun c => h.write p (.ceramic (c.fill liquid))
    | .PlasticCup =>
      ((h.read p).bind CupObj.asPlastic).bind fun c => h.write p (.plastic (c.fill liquid))

/-- The data members of `AnyCup`.  `cup` is the cell of the object the `std::any` holds
(`none` for an empty `std::any`); an empty `std::function` is `none`. -/
structure AnyCup where
  cup : Option Addr
  getLiquidFn : Option GetLiquidLambda
  fillFn : Option FillLambda
  deriving DecidableEq, Repr

/-- The pointer form `std::any_cast<CupType>(&a)`: null unless `a` holds a `CupType`. -/
def any_cast {L : Type} (CupType : CupKind) (h : Store (CupObj L)) (a : Option Addr) :
    Option Addr :=
  match a with
  | none => none
  | some p =>
    match h.read p with
    | none => none
    | some o => if o.kind = CupType then some p else none

/-- The constructor `AnyCup(CupType cup)`; `CupType` is the type of the argument. -/
def AnyCup.ctor {L : Type} (cup : CupObj L) (h : Store (CupObj L)) :
    AnyCup × Store (CupObj L) :=
  let (p, h1) := h.alloc cup
  let this_cup : Option Addr := some p
  let cupPtr := any_cast cup.kind h1 this_cup
  ({ cup := this_cup
     getLiquidFn := some { CupType := cup.kind, cupPtr := cupPtr }
     fillFn := some { CupType := cup.kind, cupPtr := cupPtr } }, h1)

/-- `fillFn(liquid)`; calling an empty `std::function` has no result here. -/
def AnyCup.fill {L : Type} [Liquid L] (self : AnyCup) (liquid : L) (h : Store (CupObj L)) :
    Option (Store (CupObj L)) :=
  match self.fillFn with
  | none => none
  | some f => f.call liquid h

/-- `return getLiquidFn();` -/
def AnyCup.getLiquid {L : Type} (self : AnyCup) (h : Store (CupObj L)) : Option L :=
  match self.getLiquidFn with
  | none => none
  | some f => f.call h

/-- The implicitly defined copy constructor of `AnyCup`: memberwise.  The `std::any` copy
holds a new object, a copy of the one `src` holds; the `std::function` copies hold copies
of the closures, captured pointer included. -/
def AnyCup.copyCtor {L : Type} (src : AnyCup) (h : Store (CupObj L)) :
    Option (AnyCup × Store (CupObj L)) :=
  match src.cup with
  | none => some ({ cup := none, getLiquidFn := src.getLiquidFn, fillFn := src.fillFn }, h)
  | some p =>
    match h.read p with
    | none => none
    | some v =>
      let (q, h1) := h.alloc v
      some ({ cup := some q, getLiquidFn := src.getLiquidFn, fillFn := src.fillFn }, h1)

/-- Choices the C++ standard leaves to the library: which contained types a `std::any`
keeps inside the `std::any` object itself rather than in a separate allocation, and the
capacity a full `std::vector` grows to. -/
structure Impl (T : Type) where
  anyInPlace : T → Bool
  grow : Nat → Nat

/-- The move constructor of `std::any`; the source is left empty.  A value kept inside the
source object is move-constructed into the target object and destroyed in the source; a
separately allocated value changes owner and stays where it is. -/
def any_move {α : Type} (inPlace : α → Bool) (h : Store α) (a : Option Addr) :
    Option (Option Addr × Store α) :=
  match a with
  | none => some (none, h)
  | some p =>
    match h.read p with
    | none => none
    | some v =>
      if inPlace v then
        let (q, h1) := h.alloc v
        some (some q, h1.free p)
      else some (some p, h)

/-- The destructor of `std::any`. -/
def any_dtor {α : Type} (h : Store α) (a : Option Addr) : Store α :=
  match a with
  | none => h
  | some p => h.free p

/-- The implicitly defined move constructor of `AnyCup`: memberwise; returns the new object
and the moved-from source. -/
def AnyCup.moveCtor {L : Type} (impl : Impl CupKind) (src : AnyCup) (h : Store (CupObj L)) :
    Option (AnyCup × AnyCup × Store (CupObj L)) :=
  (any_move (fun v => impl.anyInPlace v.kind) h src.cup).map fun (c, h1) =>
    ({ cup := c, getLiquidFn := src.getLiquidFn, fillFn := src.fillFn },
     { cup := none, getLiquidFn := none, fillFn := none }, h1)

/-- The implicitly defined destructor of `AnyCup`. -/
def AnyCup.dtor {L : Type} (self : AnyCup) (h : Store (CupObj L)) : Store (CupObj L) :=
  any_dtor h self.cup

/-- The elements and the capacity of a `std::vector<AnyCup<L>>`. -/
structure CupVector where
  elems : List AnyCup
  capacity : Nat
  deriving DecidableEq, Repr

/-- Elements of a full vector move to the new buffer: each is move-constructed there and
the moved-from element destroyed. -/
def CupVector.relocate {L : Type} (impl : Impl CupKind) :
    List AnyCup → Store (CupObj L) → Option (List AnyCup × Store (CupObj L))
  | [], h => some ([], h)
  | e :: es, h =>
    (AnyCup.moveCtor impl e h).bind fun (e1, old, h1) =>
      (CupVector.relocate impl es (old.dtor h1)).map fun (es1, h2) => (e1 :: es1, h2)

/-- `push_back(AnyCup&& x)` followed by the destruction of the temporary `x`. -/
def CupVector.push_back {L : Type} (impl : Impl CupKind) (v : CupVector) (x : AnyCup)
    (h : Store (CupObj L)) : Option (CupVector × Store (CupObj L)) :=
  (AnyCup.moveCtor impl x h).bind fun (e, x1, h1) =>
    if v.elems.length < v.capacity then
      some ({ elems := v.elems ++ [e], capacity := v.capacity }, x1.dtor h1)
    else
      (CupVector.relocate impl v.elems h1).map fun (es, h2) =>
        ({ elems := es ++ [e], capacity := impl.grow v.capacity }, x1.dtor h2)

/-- The three `push_back` lines of `main`. -/
def main_coffeeCups (impl : Impl CupKind) (h : Store (CupObj Coffee)) :
    Option (CupVector × Store (CupObj Coffee)) :=
  let coffeeCups : CupVector := { elems := [], capacity := 0 }
  let zero : Coffee := ⟨F32.finite false 0⟩
  let (t1, h1) := AnyCup.ctor (CupObj.ceramic ⟨zero⟩) h
  (coffeeCups.push_back impl t1 h1).bind fun (v1, h2) =>
    let (t2, h3) := AnyCup.ctor (CupObj.plastic ⟨zero⟩) h2
    (v1.push_back impl t2 h3).bind fun (v2, h4) =>
      let (t3, h5) := AnyCup.ctor (CupObj.plastic ⟨zero⟩) h4
      v2.push_back impl t3 h5

/-- The body of the range-based `for` loops of `main`, for the elements `cups` in order: fill
with `liquid`, then read the colour and read the temperature. -/
def fillAndRead {L : Type} [Liquid L] (liquid : L) :
    List AnyCup → Store (CupObj L) → Option (List (String × F32) × Store (CupObj L))
  | [], h => some ([], h)
  | anyCup :: rest, h =>
    (anyCup.fill liquid h).bind fun h1 =>
      (anyCup.getLiquid h1).bind fun (r1 : L) =>
        (anyCup.getLiquid h1).bind fun (r2 : L) =>
          (fillAndRead liquid rest h1).map fun (out, h2) =>
            ((Liquid.getColor r1, Liquid.getTemperature r2) :: out, h2)

/-- The coffee part of `main`: what the loop reads, in order. -/
def main_coffee (impl : Impl CupKind) : Option (List (String × F32)) :=
  (main_coffeeCups impl Store.empty).bind fun (v, h) =>
    (fillAndRead (⟨F32.lit 604 10⟩ : Coffee) v.elems h).map Prod.fst

/-- A library that keeps small objects inside the `std::any` and doubles the capacity. -/
def Impl.smallBuffer : Impl CupKind :=
  { anyInPlace := fun _ => true, grow := fun c => max 1 (2 * c) }

/-- A library whose `std::any` always allocates separately. -/
def Impl.alwaysAllocate : Impl CupKind :=
  { anyInPlace := fun _ => false, grow := fun c => max 1 (2 * c) }

/-- Calls `fill(l1)`, ..., `fill(ln)` on one wrapper. -/
def AnyCup.fills {L : Type} [Liquid L] (self : AnyCup) :
    List L → Store (CupObj L) → Option (Store (CupObj L))
  | [], h => some h
  | l :: ls, h => (self.fill l h).bind (AnyCup.fills self ls)

/-- The member call `fill(liquid)` on a cup object, by its type. -/
def CupObj.fill {L : Type} [Liquid L] : CupObj L → L → CupObj L
  | .ceramic c, l => .ceramic (c.fill l)
  | .plastic c, l => .plastic (c.fill l)

/-- The member call `getLiquid()` on a cup object, by its type. -/
def CupObj.getLiquid {L : Type} : CupObj L → L
  | .ceramic c => c.getLiquid
  | .plastic c => c.getLiquid

/-- The call `c.fill(liquid)` on the cup variable `c` that lives at `p`. -/
def fillAt {L : Type} [Liquid L] (p : Addr) (liquid : L) (h : Store (CupObj L)) :
    Option (Store (CupObj L)) :=
  (h.read p).bind fun c => h.write p (c.fill liquid)

/-- The call `c.getLiquid()` on the cup variable `c` that lives at `p`. -/
def getLiquidAt {L : Type} (p : Addr) (h : Store (CupObj L)) : Option L :=
  (h.read p).map CupObj.getLiquid

/-- Wraps each cup of the list in an `AnyCup`, in order. -/
def wrapAll {L : Type} : List (CupObj L) → Store (CupObj L) → List AnyCup × Store (CupObj L)
  | [], h => ([], h)
  | c :: cs, h =>
    let (a, h1) := AnyCup.ctor c h
    let (as, h2) := wrapAll cs h1
    (a :: as, h2)

/-- A call made on a wrapper. -/
inductive CupCall (L : Type) where
  | fill (liquid : L)
  | getLiquid

/-- A sequence of calls on one wrapper; returns the liquids the `getLiquid` calls return. -/
def AnyCup.run {L : Type} [Liquid L] (self : AnyCup) :
    List (CupCall L) → Store (CupObj L) → Option (List L × Store (CupObj L))
  | [], h => some ([], h)
  | .fill l :: cs, h => (self.fill l h).bind (AnyCup.run self cs)
  | .getLiquid :: cs, h =>
    (self.getLiquid h).bind fun r =>
      (AnyCup.run self cs h).map fun (rs, h1) => (r :: rs, h1)

/-- The closures of `a` point at the live object `o` in cell `p`, at the type of `o`. -/
def AnyCup.BoundTo {L : Type} (a : AnyCup) (o : CupObj L) (p : Addr) (h : Store (CupObj L)) : Prop :=
  a.getLiquidFn = some ⟨o.kind, some p⟩ ∧ a.fillFn = some ⟨o.kind, some p⟩ ∧ h.read p = some o

/-- The wrappers of `as` are bound, in order, to the cups `cs` in the consecutive cells from
`base` on. -/
def AllBound {L : Type} : List AnyCup → List (CupObj L) → Addr → Store (CupObj L) → Prop
  | [], [], _, _ => True
  | a :: as, c :: cs, base, h => a.BoundTo c base h ∧ AllBound as cs (base + 1) h
  | _, _, _, _ => False

/-- The statements `AnyCup<L> a(c); AnyCup<L> b = a; b.fill(liquid);` with the reads around
them: what `a.getLiquid()` returns before `b` is filled, what it returns afterwards, what
`b.getLiquid()` returns afterwards, and the cup the `std::any` of `b` holds at the end. -/
def copyThenFill {L : Type} [Liquid L] (c : CupObj L) (liquid : L) (h : Store (CupObj L)) :
    Option (Option L × Option L × Option L × Option (CupObj L)) :=
  let (a, h1) := AnyCup.ctor c h
  (AnyCup.copyCtor a h1).bind fun (b, h2) =>
    (b.fill liquid h2).map fun h3 =>
      (a.getLiquid h2, a.getLiquid h3, b.getLiquid h3, h3.load b.cup)

/-- The temperature a cup of the given type holds after `fill` with a liquid at `t`. -/
def filledTemperature (k : CupKind) (t : F32) : F32 :=
  match k with
  | .CeramicCup => F32.sub t (F32.lit 1 1)
  | .PlasticCup => F32.sub t (F32.lit 10 1)

/-- The cups `main` wraps, in order, each value-initialised. -/
def main_cups : List (CupObj Coffee) :=
  [CupObj.ceramic ⟨⟨F32.finite false 0⟩⟩, CupObj.plastic ⟨⟨F32.finite false 0⟩⟩,
    CupObj.plastic ⟨⟨F32.finite false 0⟩⟩]

/-! ## `sean-anyfunction.cpp` -/

/-- The types `object_t`'s constructor template is instantiated with. -/
inductive Ty where
  | int
  | string
  | my_class_t
  | document_t
  deriving DecidableEq, Repr

/-- The closure `[self__](ostream& out, size_t position) { draw(*self__, out, position); }`
instantiated at `T`. -/
structure DrawLambda where
  T : Ty
  self__ : Option Addr
  deriving DecidableEq, Repr

/-- The data members of `object_t`.  `self_` is the cell of the object the `std::any` holds
(`none` for an empty `std::any`); an empty `std::function` is `none`. -/
structure object_t where
  self_ : Option Addr
  draw_ : Option DrawLambda
  deriving DecidableEq, Repr

/-- The elements of a `vector<object_t>`, in order. -/
abbrev document_t := List object_t

structure my_class_t where
  deriving DecidableEq, Repr

/-- An object as a `std::any` holds it: the value together with its dynamic type. -/
inductive Val where
  | int (x : Int)
  | string (x : String)
  | my_class_t (x : my_class_t)
  | document_t (x : document_t)
  deriving DecidableEq, Repr

def Val.type : Val → Ty
  | .int _ => .int
  | .string _ => .string
  | .my_class_t _ => .my_class_t
  | .document_t _ => .document_t

/-- The characters of `string(position, ' ')`. -/
def spaces (position : Nat) : String :=
  String.mk (List.replicate position ' ')

/-- The template `draw<T>` at `T = int`: `out << string(position, ' ') << x << endl`.  The
stream is the text written to it so far. -/
def draw_int (x : Int) (out : String) (position : Nat) : String :=
  out ++ spaces position ++ toString x ++ "\n"

/-- The template `draw<T>` at `T = std::string`. -/
def draw_string (x : String) (out : String) (position : Nat) : String :=
  out ++ spaces position ++ x ++ "\n"

/-- The overload `draw(const my_class_t&, ostream&, size_t)`. -/
def draw_my_class_t (_x : my_class_t) (out : String) (position : Nat) : String :=
  out ++ spaces position ++ "my_class_t" ++ "\n"

/-- The loop `for(const auto& e : x) draw(e, out, position + 2);`, given `draw` for an
element. -/
def draw_elements (draw_e : object_t → String → Nat → Option String) :
    document_t → String → Nat → Option String
  | [], out, _ => some out
  | e :: es, out, position =>
    (draw_e e out (position + 2)).bind fun out1 => draw_elements draw_e es out1 position

/-- The overload `draw(const document_t&, ostream&, size_t)`, given `draw` for an element. -/
def draw_document_t (draw_e : object_t → String → Nat → Option String) (x : document_t)
    (out : String) (position : Nat) : Option String :=
  (draw_elements draw_e x (out ++ spaces position ++ "<document>" ++ "\n") position).map
    fun out1 => out1 ++ spaces position ++ "</document>" ++ "\n"

/-- The friend `draw(const object_t&, ostream&, size_t)`: `x.draw_(out, position)`, and with
it the body of the closure, `draw(*self__, out, position)` at the captured type.  `fuel`
bounds the nesting of documents followed. -/
def draw : Nat → Store Val → object_t → String → Nat → Option String
  | 0, _, _, _, _ => none
  | fuel + 1, h, x, out, position =>
    match x.draw_ with
    | none => none
    | some f =>
      match f.T, h.load f.self__ with
      | .int, some (.int v) => some (draw_int v out position)
      | .string, some (.string v) => some (draw_string v out position)
      | .my_class_t, some (.my_class_t v) => some (draw_my_class_t v out position)
      | .document_t, some (.document_t v) => draw_document_t (draw fuel h) v out position
      | _, _ => none

/-- A call `draw(x, out, position)` on a value of a drawable type, resolved by the type. -/
def drawVal (fuel : Nat) (h : Store Val) (x : Val) (out : String) (position : Nat) :
    Option String :=
  match x with
  | .int v => some (draw_int v out position)
  | .string v => some (draw_string v out position)
  | .my_class_t v => some (draw_my_class_t v out position)
  | .document_t v => draw_document_t (draw fuel h) v out position

/-- The pointer form `std::any_cast<T>(&a)`: null unless `a` holds a `T`. -/
def any_cast_T (T : Ty) (h : Store Val) (a : Option Addr) : Option Addr :=
  match a with
  | none => none
  | some p =>
    match h.read p with
    | none => none
    | some o => if o.type = T then some p else none

/-- The constructor `object_t(T x)`, from the value of its parameter `x`; `T` is the type of
the argument.  Moving `x` into `self_` leaves the elements of a document where they are. -/
def object_t.ctor (x : Val) (h : Store Val) : object_t × Store Val :=
  let (p, h1) := h.alloc x
  let self_ : Option Addr := some p
  let self__ := any_cast_T x.type h1 self_
  ({ self_ := self_, draw_ := some { T := x.type, self__ := self__ } }, h1)

/-- Copy construction of the elements of a vector, in order, given the copy constructor of
an element. -/
def copy_elements (copy_e : object_t → Store Val → Option (object_t × Store Val)) :
    document_t → Store Val → Option (document_t × Store Val)
  | [], h => some ([], h)
  | e :: es, h =>
    (copy_e e h).bind fun (e1, h1) =>
      (copy_elements copy_e es h1).map fun (es1, h2) => (e1 :: es1, h2)

/-- The implicitly defined copy constructor of `object_t`: memberwise.  The `std::any` copy
holds a new object, a copy of the one `src` holds (for a document, copies of its elements);
the `std::function` copy holds a copy of the closure, captured pointer included.  `fuel`
bounds the nesting of documents followed. -/
def object_t.copyCtor : Nat → object_t → Store Val → Option (object_t × Store Val)
  | 0, _, _ => none
  | fuel + 1, src, h =>
    match src.self_ with
    | none => some ({ self_ := none, draw_ := src.draw_ }, h)
    | some p =>
      match h.read p with
      | none => none
      | some (.document_t d) =>
        (copy_elements (object_t.copyCtor fuel) d h).map fun (d1, h1) =>
          let (q, h2) := h1.alloc (.document_t d1)
          ({ self_ := some q, draw_ := src.draw_ }, h2)
      | some v =>
        let (q, h1) := h.alloc v
        some ({ self_ := some q, draw_ := src.draw_ }, h1)

/-- Initialisation of a by-value parameter from an lvalue argument: a copy. -/
def Val.copy (fuel : Nat) (x : Val) (h : Store Val) : Option (Val × Store Val) :=
  match x with
  | .document_t d =>
    (copy_elements (object_t.copyCtor fuel) d h).map fun (d1, h1) => (.document_t d1, h1)
  | v => some (v, h)

/-- The implicitly defined move constructor of `object_t`: memberwise; returns the new
object and the moved-from source. -/
def object_t.moveCtor (impl : Impl Ty) (src : object_t) (h : Store Val) :
    Option (object_t × object_t × Store Val) :=
  (any_move (fun v => impl.anyInPlace v.type) h src.self_).map fun (s, h1) =>
    ({ self_ := s, draw_ := src.draw_ }, { self_ := none, draw_ := none }, h1)

/-- The elements and the capacity of the local `document_t document`. -/
structure DocVector where
  elems : document_t
  capacity : Nat
  deriving DecidableEq, Repr

/-- Elements of a full vector move to the new buffer: each is move-constructed there and
the moved-from element, which holds nothing, destroyed. -/
def DocVector.relocate (impl : Impl Ty) :
    document_t → Store Val → Option (document_t × Store Val)
  | [], h => some ([], h)
  | e :: es, h =>
    (object_t.moveCtor impl e h).bind fun (e1, old, h1) =>
      (DocVector.relocate impl es (any_dtor h1 old.self_)).map fun (es1, h2) => (e1 :: es1, h2)

/-- `emplace_back(x)` where `x` is the value of the constructor's parameter: the new element
is constructed in the vector's storage, in a larger buffer when the vector is full, before the
old elements move there. -/
def DocVector.emplace_back (impl : Impl Ty) (v : DocVector) (x : Val) (h : Store Val) :
    Option (DocVector × Store Val) :=
  let (e, h1) := object_t.ctor x h
  if v.elems.length < v.capacity then
    some ({ elems := v.elems ++ [e], capacity := v.capacity }, h1)
  else
    (DocVector.relocate impl v.elems h1).map fun (es, h2) =>
      ({ elems := es ++ [e], capacity := impl.grow v.capacity }, h2)

/-- The four `emplace_back` lines of `example1`. -/
def example1_document (impl : Impl Ty) (fuel : Nat) : Option (DocVector × Store Val) :=
  let document : DocVector := { elems := [], capacity := 0 }
  (document.emplace_back impl (.int 0) Store.empty).bind fun (d1, h1) =>
    (d1.emplace_back impl (.string "Hello!") h1).bind fun (d2, h2) =>
      (Val.copy fuel (.document_t d2.elems) h2).bind fun (x, h3) =>
        (d2.emplace_back impl x h3).bind fun (d3, h4) =>
          d3.emplace_back impl (.my_class_t {}) h4

/-- The text `example1` writes to `cout`. -/
def example1 (impl : Impl Ty) (fuel : Nat) : Option String :=
  (example1_document impl fuel).bind fun (document, h) =>
    draw_document_t (draw fuel h) document.elems "" 0

/-- A library whose `std::any` keeps objects no larger than a pointer inside itself, and
whose vector doubles its capacity. -/
def Impl.pointerSized : Impl Ty :=
  { anyInPlace := fun T =>
      match T with
      | .int => true
      | .my_class_t => true
      | .string => false
      | .document_t => false
    grow := fun c => max 1 (2 * c) }

/-- A library whose `std::any` always allocates separately. -/
def Impl.separate : Impl Ty :=
  { anyInPlace := fun _ => false, grow := fun c => max 1 (2 * c) }

/-- The nine lines the comments and the structure of `example1` lead to. -/
def example1_expected : String :=
  "<document>\n  0\n  Hello!\n  <document>\n    0\n    Hello!\n  </document>\n  my_class_t\n</document>\n"
/-! ## Store lemmas -/

namespace Store

variable {α : Type}

theorem read_alloc_self (h : Store α) (v : α) : (h.alloc v).2.read (h.alloc v).1 = some v := by
  simp [alloc, read]

theorem read_alloc_of_ne (h : Store α) (v : α) (p : Addr) (hp : p ≠ (h.alloc v).1) :
    (h.alloc v).2.read p = h.read p := by
  simp only [alloc, read, List.get?_eq_getElem?] at *
  rcases Nat.lt_or_gt_of_ne hp with hlt | hgt
  · rw [List.getElem?_append_left hlt]
  · rw [List.getElem?_eq_none (by simp; omega), List.getElem?_eq_none (by omega)]

theorem lt_of_read_eq_some {h : Store α} {p : Addr} {v : α} (hr : h.read p = some v) :
    p < h.cells.length := by
  by_contra hge
  simp [read, List.getElem?_eq_none (Nat.le_of_not_lt hge)] at hr

theorem read_alloc_of_live (h : Store α) (v w : α) (p : Addr) (hr : h.read p = some w) :
    (h.alloc v).2.read p = some w := by
  have hlt := lt_of_read_eq_some hr
  have hne : p ≠ (h.alloc v).1 := by
    exact Nat.ne_of_lt hlt
  rw [read_alloc_of_ne _ _ _ hne, hr]

theorem write_eq_some {h : Store α} {p : Addr} {w : α} (v : α) (hr : h.read p = some w) :
    h.write p v = some ⟨h.cells.set p (some v)⟩ := by
  simp [write, hr]

theorem read_set_self {h : Store α} {p : Addr} {w : α} (v : α) (hr : h.read p = some w) :
    (Store.mk (h.cells.set p (some v))).read p = some v := by
  have := lt_of_read_eq_some hr
  simp [read, List.getElem?_set, this]

theorem read_set_of_ne (h : Store α) (p q : Addr) (v : Option α) (hq : q ≠ p) :
    (Store.mk (h.cells.set p v)).read q = h.read q := by
  simp [read, List.getElem?_set, Ne.symm hq]

end Store

/-! ## `AnyCup`: a wrapper used where it was constructed -/

section AnyCupLemmas

variable {L : Type}

theorem CupObj.kind_fill [Liquid L] (o : CupObj L) (l : L) : (o.fill l).kind = o.kind := by
  cases o <;> rfl

theorem CupObj.foldl_fill_ceramic [Liquid L] (ls : List L) (c : CeramicCup L) :
    ls.foldl CupObj.fill (.ceramic c) = .ceramic (ls.foldl CeramicCup.fill c) := by
  induction ls generalizing c with
  | nil => rfl
  | cons l ls ih => exact ih _

theorem CupObj.foldl_fill_plastic [Liquid L] (ls : List L) (c : PlasticCup L) :
    ls.foldl CupObj.fill (.plastic c) = .plastic (ls.foldl PlasticCup.fill c) := by
  induction ls generalizing c with
  | nil => rfl
  | cons l ls ih => exact ih _

theorem AnyCup.ctor_eq (c : CupObj L) (h : Store (CupObj L)) :
    AnyCup.ctor c h =
      ({ cup := some h.cells.length
         getLiquidFn := some ⟨c.kind, some h.cells.length⟩
         fillFn := some ⟨c.kind, some h.cells.length⟩ }, (h.alloc c).2) := by
  have hr : (h.alloc c).2.read h.cells.length = some c := Store.read_alloc_self h c
  simp only [AnyCup.ctor, any_cast]
  have : (h.alloc c).1 = h.cells.length := rfl
  simp [this, hr]

theorem AnyCup.ctor_boundTo (c : CupObj L) (h : Store (CupObj L)) :
    (AnyCup.ctor c h).1.BoundTo c h.cells.length (AnyCup.ctor c h).2 := by
  rw [AnyCup.ctor_eq]
  exact ⟨rfl, rfl, Store.read_alloc_self h c⟩

theorem AnyCup.getLiquid_of_boundTo {a : AnyCup} {o : CupObj L} {p : Addr}
    {h : Store (CupObj L)} (hb : a.BoundTo o p h) : a.getLiquid h = some o.getLiquid := by
  obtain ⟨hg, -, hr⟩ := hb
  cases o <;> simp [AnyCup.getLiquid, hg, GetLiquidLambda.call, Store.load, hr, CupObj.kind,
    CupObj.asCeramic, CupObj.asPlastic, CupObj.getLiquid]

theorem AnyCup.fill_of_boundTo [Liquid L] {a : AnyCup} {o : CupObj L} {p : Addr}
    {h : Store (CupObj L)} (hb : a.BoundTo o p h) (l : L) :
    a.fill l h = some ⟨h.cells.set p (some (o.fill l))⟩ := by
  obtain ⟨-, hf, hr⟩ := hb
  cases o <;> simp [AnyCup.fill, hf, FillLambda.call, hr, CupObj.kind, CupObj.asCeramic,
    CupObj.asPlastic, CupObj.fill, Store.write]

theorem AnyCup.boundTo_after_fill [Liquid L] {a : AnyCup} {o : CupObj L} {p : Addr}
    {h : Store (CupObj L)} (hb : a.BoundTo o p h) (l : L) :
    a.BoundTo (o.fill l) p ⟨h.cells.set p (some (o.fill l))⟩ := by
  obtain ⟨hg, hf, hr⟩ := hb
  refine ⟨?_, ?_, Store.read_set_self _ hr⟩
  · rw [CupObj.kind_fill]; exact hg
  · rw [CupObj.kind_fill]; exact hf

theorem AnyCup.fills_of_boundTo [Liquid L] {a : AnyCup} (ls : List L) {o : CupObj L} {p : Addr}
    {h : Store (CupObj L)} (hb : a.BoundTo o p h) :
    ∃ h1, a.fills ls h = some h1 ∧ a.BoundTo (ls.foldl CupObj.fill o) p h1 ∧
      ∀ q, q ≠ p → h1.read q = h.read q := by
  induction ls generalizing o h with
  | nil => exact ⟨h, rfl, hb, fun _ _ => rfl⟩
  | cons l ls ih =>
    obtain ⟨h1, hf, hb1, hframe⟩ := ih (AnyCup.boundTo_after_fill hb l)
    refine ⟨h1, ?_, hb1, fun q hq => ?_⟩
    · simp [AnyCup.fills, AnyCup.fill_of_boundTo hb l, hf]
    · rw [hframe q hq, Store.read_set_of_ne _ _ _ _ hq]

end AnyCupLemmas

/-- C1. Calls `fill(l1)`, ..., `fill(ln)` and then `getLiquid()` on `AnyCup<L>(c)` return the
liquid the same calls return when made on the cup `c` itself, for `CeramicCup<L>` and for
`PlasticCup<L>`, every liquid type, every cup value and every store. -/
theorem anyCup_invoke_transparent {L : Type} [Liquid L] (h : Store (CupObj L)) (ls : List L) :
    (∀ c : CeramicCup L,
      ((AnyCup.ctor (.ceramic c) h).1.fills ls (AnyCup.ctor (.ceramic c) h).2).bind
          (AnyCup.ctor (.ceramic c) h).1.getLiquid
        = some (ls.foldl CeramicCup.fill c).getLiquid) ∧
    (∀ c : PlasticCup L,
      ((AnyCup.ctor (.plastic c) h).1.fills ls (AnyCup.ctor (.plastic c) h).2).bind
          (AnyCup.ctor (.plastic c) h).1.getLiquid
        = some (ls.foldl PlasticCup.fill c).getLiquid) := by
  constructor
  · intro c
    obtain ⟨h1, hf, hb, -⟩ := AnyCup.fills_of_boundTo ls (AnyCup.ctor_boundTo (.ceramic c) h)
    rw [hf, Option.some_bind, AnyCup.getLiquid_of_boundTo hb, CupObj.foldl_fill_ceramic]
    rfl
  · intro c
    obtain ⟨h1, hf, hb, -⟩ := AnyCup.fills_of_boundTo ls (AnyCup.ctor_boundTo (.plastic c) h)
    rw [hf, Option.some_bind, AnyCup.getLiquid_of_boundTo hb, CupObj.foldl_fill_plastic]
    rfl

/-! ## Copies of an `AnyCup` -/

theorem AnyCup.copyCtor_ctor {L : Type} (c : CupObj L) (h : Store (CupObj L)) :
    AnyCup.copyCtor (AnyCup.ctor c h).1 (AnyCup.ctor c h).2 =
      some ({ cup := some (h.cells.length + 1)
              getLiquidFn := some ⟨c.kind, some h.cells.length⟩
              fillFn := some ⟨c.kind, some h.cells.length⟩ },
            ((h.alloc c).2.alloc c).2) := by
  have hr : (Store.mk (h.cells ++ [some c])).read h.cells.length = some c :=
    Store.read_alloc_self h c
  rw [AnyCup.ctor_eq]
  simp [AnyCup.copyCtor, hr, Store.alloc]

/-- For every cup, liquid and store: filling the copy fills the cup of the original, and the
cup held by the copy keeps its old contents. -/
theorem copyThenFill_eq {L : Type} [Liquid L] (c : CupObj L) (liquid : L)
    (h : Store (CupObj L)) :
    copyThenFill c liquid h =
      some (some c.getLiquid, some (c.fill liquid).getLiquid, some (c.fill liquid).getLiquid,
        some c) := by
  have hb1 := AnyCup.ctor_boundTo c h
  have hcopy := AnyCup.copyCtor_ctor c h
  generalize hb : (⟨some (h.cells.length + 1), some ⟨c.kind, some h.cells.length⟩,
    some ⟨c.kind, some h.cells.length⟩⟩ : AnyCup) = b at hcopy
  have hr2 : ((h.alloc c).2.alloc c).2.read h.cells.length = some c :=
    Store.read_alloc_of_live _ c c _ (Store.read_alloc_self h c)
  have hr2b : ((h.alloc c).2.alloc c).2.read (h.cells.length + 1) = some c := by
    have := Store.read_alloc_self (h.alloc c).2 c
    simpa [Store.alloc] using this
  have ha2 : (AnyCup.ctor c h).1.BoundTo c h.cells.length ((h.alloc c).2.alloc c).2 :=
    ⟨hb1.1, hb1.2.1, hr2⟩
  have hbb : b.BoundTo c h.cells.length ((h.alloc c).2.alloc c).2 := by
    subst hb
    exact ⟨rfl, rfl, hr2⟩
  have ha3 := AnyCup.boundTo_after_fill ha2 liquid
  have hb3 := AnyCup.boundTo_after_fill hbb liquid
  have hcup : b.cup = some (h.cells.length + 1) := by subst hb; rfl
  have hown : (Store.mk (((h.alloc c).2.alloc c).2.cells.set h.cells.length
      (some (c.fill liquid)))).read (h.cells.length + 1) = some c := by
    rw [Store.read_set_of_ne _ _ _ _ (Nat.succ_ne_self _), hr2b]
  simp only [copyThenFill, hcopy, Option.some_bind, AnyCup.fill_of_boundTo hbb liquid,
    Option.map_some', AnyCup.getLiquid_of_boundTo ha2, AnyCup.getLiquid_of_boundTo ha3,
    AnyCup.getLiquid_of_boundTo hb3, hcup, Store.load, hown]

/-- C2. At `a = AnyCup<Coffee>(CeramicCup<Coffee>{Coffee{20}})`, `b` a copy of `a`,
`b.fill(Coffee{60.4f})`: `a.getLiquid()` returned 20 before and returns 59.4 afterwards, the
value `b.getLiquid()` returns too, while the cup stored in `b` still holds 20. The closures
of the copy act on the cup of the original. -/
theorem copy_fill_reaches_original :
    copyThenFill (CupObj.ceramic (⟨⟨F32.lit 20 1⟩⟩ : CeramicCup Coffee)) ⟨F32.lit 604 10⟩
        Store.empty
      = some (some ⟨F32.lit 20 1⟩, some ⟨F32.lit 594 10⟩, some ⟨F32.lit 594 10⟩,
          some (CupObj.ceramic ⟨⟨F32.lit 20 1⟩⟩)) ∧
    (⟨F32.lit 594 10⟩ : Coffee) ≠ ⟨F32.lit 20 1⟩ := by
  decide

/-! ## Sequences of calls on one wrapper -/

theorem AnyCup.run_of_boundTo {L : Type} [Liquid L] {a : AnyCup} (calls : List (CupCall L))
    {o : CupObj L} {p : Addr} {h : Store (CupObj L)} (hb : a.BoundTo o p h) :
    ∃ rs h1 o1, a.run calls h = some (rs, h1) ∧ a.BoundTo o1 p h1 ∧ o1.kind = o.kind := by
  induction calls generalizing o h with
  | nil => exact ⟨[], h, o, rfl, hb, rfl⟩
  | cons call calls ih =>
    cases call with
    | fill l =>
      obtain ⟨rs, h1, o1, hrun, hb1, hk⟩ := ih (AnyCup.boundTo_after_fill hb l)
      refine ⟨rs, h1, o1, ?_, hb1, hk.trans (CupObj.kind_fill o l)⟩
      simp [AnyCup.run, AnyCup.fill_of_boundTo hb l, hrun]
    | getLiquid =>
      obtain ⟨rs, h1, o1, hrun, hb1, hk⟩ := ih hb
      refine ⟨o.getLiquid :: rs, h1, o1, ?_, hb1, hk⟩
      simp [AnyCup.run, AnyCup.getLiquid_of_boundTo hb, hrun]

theorem any_cast_of_read {L : Type} {o : CupObj L} {p : Addr} {h : Store (CupObj L)}
    (hr : h.read p = some o) : any_cast o.kind h (some p) = some p := by
  simp [any_cast, hr]

/-! ## The wrapper owns a copy -/

/-- C4. Let the cup variable `c` live at `pc`. After `a = AnyCup<L>(c)` and any calls
`a.fill(...)`, `c` is unchanged and so is what `c.getLiquid()` returns; and a call `c.fill(l)`
made then is defined and does not change what `a.getLiquid()` returns, which is the liquid
of the wrapper's own copy after its fills. -/
theorem anyCup_owns_copy {L : Type} [Liquid L] (h : Store (CupObj L)) (pc : Addr)
    (c : CupObj L) (hc : h.read pc = some c) (ls : List L) (l : L) :
    ∃ h2, (AnyCup.ctor c h).1.fills ls (AnyCup.ctor c h).2 = some h2 ∧
      h2.read pc = some c ∧
      getLiquidAt pc h2 = getLiquidAt pc h ∧
      ∃ h3, fillAt pc l h2 = some h3 ∧
        ((AnyCup.ctor c h).1.getLiquid h3 : Option L) = (AnyCup.ctor c h).1.getLiquid h2 ∧
        (AnyCup.ctor c h).1.getLiquid h2 = some (ls.foldl CupObj.fill c).getLiquid := by
  have hlt : pc < h.cells.length := Store.lt_of_read_eq_some hc
  have hne : pc ≠ h.cells.length := Nat.ne_of_lt hlt
  obtain ⟨h2, hf, hb, hframe⟩ := AnyCup.fills_of_boundTo ls (AnyCup.ctor_boundTo c h)
  have h1c : (AnyCup.ctor c h).2.read pc = some c := by
    rw [AnyCup.ctor_eq]
    exact Store.read_alloc_of_live h c c pc hc
  have h2c : h2.read pc = some c := by rw [hframe pc hne, h1c]
  refine ⟨h2, hf, h2c, by simp [getLiquidAt, h2c, hc],
    ⟨⟨h2.cells.set pc (some (c.fill l))⟩, ?_, ?_, ?_⟩⟩
  · simp only [fillAt, h2c, Option.some_bind, Store.write_eq_some _ h2c]
  · have hb3 : (AnyCup.ctor c h).1.BoundTo (ls.foldl CupObj.fill c) h.cells.length
        ⟨h2.cells.set pc (some (c.fill l))⟩ :=
      ⟨hb.1, hb.2.1, by rw [Store.read_set_of_ne _ _ _ _ (Ne.symm hne)]; exact hb.2.2⟩
    rw [AnyCup.getLiquid_of_boundTo hb3, AnyCup.getLiquid_of_boundTo hb]
  · exact AnyCup.getLiquid_of_boundTo hb

theorem anyCup_owns_copy_witness :
    (Store.mk [some (CupObj.plastic (⟨⟨F32.lit 20 1⟩⟩ : PlasticCup Coffee))]).read 0
        = some (CupObj.plastic ⟨⟨F32.lit 20 1⟩⟩) ∧
    ∃ h2, (AnyCup.ctor (CupObj.plastic (⟨⟨F32.lit 20 1⟩⟩ : PlasticCup Coffee))
          ⟨[some (CupObj.plastic ⟨⟨F32.lit 20 1⟩⟩)]⟩).1.fills [⟨F32.lit 604 10⟩]
        (AnyCup.ctor (CupObj.plastic (⟨⟨F32.lit 20 1⟩⟩ : PlasticCup Coffee))
          ⟨[some (CupObj.plastic ⟨⟨F32.lit 20 1⟩⟩)]⟩).2 = some h2 ∧
      h2.read 0 = some (CupObj.plastic ⟨⟨F32.lit 20 1⟩⟩) :=
  ⟨by decide,
    (anyCup_owns_copy ⟨[some (CupObj.plastic ⟨⟨F32.lit 20 1⟩⟩)]⟩ 0
      (CupObj.plastic ⟨⟨F32.lit 20 1⟩⟩) (by decide) [⟨F32.lit 604 10⟩] ⟨F32.lit 30 1⟩).imp
      fun _ hx => ⟨hx.1, hx.2.1⟩⟩

/-! ## The two scenarios -/

theorem F32.sub_604_1 : F32.sub (F32.lit 604 10) (F32.lit 1 1) = F32.lit 594 10 := by
  decide

theorem F32.sub_604_10 : F32.sub (F32.lit 604 10) (F32.lit 10 1) = F32.lit 504 10 := by
  decide

theorem AnyCup.fill_getLiquid_ctor {L : Type} [Liquid L] (c : CupObj L) (l : L)
    (h : Store (CupObj L)) :
    ((AnyCup.ctor c h).1.fill l (AnyCup.ctor c h).2).bind (AnyCup.ctor c h).1.getLiquid
      = some (c.fill l).getLiquid := by
  have hb := AnyCup.ctor_boundTo c h
  rw [AnyCup.fill_of_boundTo hb l, Option.some_bind,
    AnyCup.getLiquid_of_boundTo (AnyCup.boundTo_after_fill hb l)]

/-- C5. For every temperature `t`, every `CeramicCup<Coffee>` value and every store,
`fill(Coffee{t})` followed by `getLiquid()` on the `AnyCup<Coffee>` wrapping the cup returns a
coffee with temperature `t - 1.0f` and colour "black", whatever the cup held; at 60.4f the
temperature is 59.4f. -/
theorem ceramic_scenario (t : F32) (c : CeramicCup Coffee) (h : Store (CupObj Coffee)) :
    (((AnyCup.ctor (.ceramic c) h).1.fill (⟨t⟩ : Coffee) (AnyCup.ctor (.ceramic c) h).2).bind
        (AnyCup.ctor (.ceramic c) h).1.getLiquid).map
        (fun (r : Coffee) => (r.getTemperature, r.getColor))
      = some (F32.sub t (F32.lit 1 1), "black") ∧
    (((AnyCup.ctor (.ceramic c) h).1.fill (⟨F32.lit 604 10⟩ : Coffee)
        (AnyCup.ctor (.ceramic c) h).2).bind
        (AnyCup.ctor (.ceramic c) h).1.getLiquid).map
        (fun (r : Coffee) => (r.getTemperature, r.getColor))
      = some (F32.lit 594 10, "black") := by
  constructor
  · rw [AnyCup.fill_getLiquid_ctor]; rfl
  · rw [AnyCup.fill_getLiquid_ctor, ← F32.sub_604_1]; rfl

/-- C6. For every temperature `t`, every `PlasticCup<Coffee>` value and every store,
`fill(Coffee{t})` followed by `getLiquid()` on the `AnyCup<Coffee>` wrapping the cup returns a
coffee with temperature `t - 10.0f`, whatever the cup held; at 60.4f the temperature is
50.4f. -/
theorem plastic_scenario (t : F32) (c : PlasticCup Coffee) (h : Store (CupObj Coffee)) :
    (((AnyCup.ctor (.plastic c) h).1.fill (⟨t⟩ : Coffee) (AnyCup.ctor (.plastic c) h).2).bind
        (AnyCup.ctor (.plastic c) h).1.getLiquid).map Coffee.getTemperature
      = some (F32.sub t (F32.lit 10 1)) ∧
    (((AnyCup.ctor (.plastic c) h).1.fill (⟨F32.lit 604 10⟩ : Coffee)
        (AnyCup.ctor (.plastic c) h).2).bind
        (AnyCup.ctor (.plastic c) h).1.getLiquid).map Coffee.getTemperature
      = some (F32.lit 504 10) := by
  constructor
  · rw [AnyCup.fill_getLiquid_ctor]; rfl
  · rw [AnyCup.fill_getLiquid_ctor, ← F32.sub_604_10]; rfl

/-! ## A sequence of wrappers -/

section Sequence

variable {L : Type}

theorem AnyCup.BoundTo.of_read {a : AnyCup} {o : CupObj L} {p : Addr} {h h1 : Store (CupObj L)}
    (hb : a.BoundTo o p h) (hr : h1.read p = some o) : a.BoundTo o p h1 :=
  ⟨hb.1, hb.2.1, hr⟩

theorem wrapAll_read_live (cs : List (CupObj L)) (h : Store (CupObj L)) (p : Addr)
    (w : CupObj L) (hr : h.read p = some w) : (wrapAll cs h).2.read p = some w := by
  induction cs generalizing h with
  | nil => exact hr
  | cons c cs ih =>
    have h1 : (AnyCup.ctor c h).2.read p = some w := by
      rw [AnyCup.ctor_eq]
      exact Store.read_alloc_of_live h c w p hr
    exact ih (AnyCup.ctor c h).2 h1

theorem wrapAll_allBound (cs : List (CupObj L)) (h : Store (CupObj L)) :
    AllBound (wrapAll cs h).1 cs h.cells.length (wrapAll cs h).2 := by
  induction cs generalizing h with
  | nil => exact True.intro
  | cons c cs ih =>
    have hb := AnyCup.ctor_boundTo c h
    have hlen : (AnyCup.ctor c h).2.cells.length = h.cells.length + 1 := by
      rw [AnyCup.ctor_eq]
      simp [Store.alloc]
    have ih1 := ih (AnyCup.ctor c h).2
    rw [hlen] at ih1
    exact ⟨hb.of_read (wrapAll_read_live cs _ _ _ hb.2.2), ih1⟩

theorem AllBound.frame {as : List AnyCup} {cs : List (CupObj L)} {base : Addr}
    {h h1 : Store (CupObj L)} (hall : AllBound as cs base h)
    (hframe : ∀ q, base ≤ q → h1.read q = h.read q) : AllBound as cs base h1 := by
  induction as generalizing cs base with
  | nil =>
    cases cs with
    | nil => exact True.intro
    | cons c cs => exact hall.elim
  | cons a as ih =>
    cases cs with
    | nil => exact hall.elim
    | cons c cs =>
      obtain ⟨hb, hrest⟩ := hall
      refine ⟨hb.of_read ?_, ih hrest fun q hq => hframe q (Nat.le_of_succ_le hq)⟩
      rw [hframe base (Nat.le_refl _)]
      exact hb.2.2

theorem AllBound.closures {as : List AnyCup} {cs : List (CupObj L)} {base : Addr}
    {h : Store (CupObj L)} (hall : AllBound as cs base h) (i : Nat) (a : AnyCup)
    (ha : as[i]? = some a) :
    ∃ K, a.getLiquidFn = some ⟨K, some (base + i)⟩ ∧ a.fillFn = some ⟨K, some (base + i)⟩ := by
  induction as generalizing cs base i with
  | nil => simp at ha
  | cons b as ih =>
    cases cs with
    | nil => exact hall.elim
    | cons c cs =>
      obtain ⟨hb, hrest⟩ := hall
      cases i with
      | zero =>
        simp only [List.getElem?_cons_zero, Option.some.injEq] at ha
        subst ha
        exact ⟨c.kind, hb.1, hb.2.1⟩
      | succ i =>
        simp only [List.getElem?_cons_succ] at ha
        obtain ⟨K, hg, hf⟩ := ih hrest i ha
        refine ⟨K, ?_, ?_⟩
        · rw [hg, Nat.add_assoc, Nat.add_comm 1 i]
        · rw [hf, Nat.add_assoc, Nat.add_comm 1 i]

theorem CupObj.read_after_fill [Liquid L] (c : CupObj L) (l : L) :
    (Liquid.getColor (c.fill l).getLiquid, Liquid.getTemperature (c.fill l).getLiquid)
      = (Liquid.getColor l, filledTemperature c.kind (Liquid.temperature l)) := by
  cases c <;>
    simp [CupObj.fill, CupObj.getLiquid, CeramicCup.fill, PlasticCup.fill, CeramicCup.getLiquid,
      PlasticCup.getLiquid, CupObj.kind, filledTemperature, Liquid.getTemperature_eq,
      Liquid.temperature_set, Liquid.getColor_set]

theorem fillAndRead_allBound [Liquid L] (l : L) {as : List AnyCup} {cs : List (CupObj L)}
    {base : Addr} {h : Store (CupObj L)} (hall : AllBound as cs base h) :
    (fillAndRead l as h).map Prod.fst
      = some (cs.map fun c => (Liquid.getColor l, filledTemperature c.kind (Liquid.temperature l))) := by
  induction as generalizing cs base h with
  | nil =>
    cases cs with
    | nil => rfl
    | cons c cs => exact hall.elim
  | cons a as ih =>
    cases cs with
    | nil => exact hall.elim
    | cons c cs =>
      obtain ⟨hb, hrest⟩ := hall
      have hrest1 : AllBound as cs (base + 1) ⟨h.cells.set base (some (c.fill l))⟩ :=
        hrest.frame fun q hq => Store.read_set_of_ne _ _ _ _ (Nat.ne_of_gt hq)
      have ih1 := ih hrest1
      have hg := AnyCup.getLiquid_of_boundTo (AnyCup.boundTo_after_fill hb l)
      simp only [fillAndRead, AnyCup.fill_of_boundTo hb l, Option.some_bind, hg]
      cases hrec : fillAndRead l as ⟨h.cells.set base (some (c.fill l))⟩ with
      | none => simp [hrec] at ih1
      | some r =>
        simp only [hrec, Option.map_some', Option.some.injEq] at ih1
        simp only [Option.map_some', List.map_cons, ih1, CupObj.read_after_fill]

theorem AnyCup.fill_frame [Liquid L] {a : AnyCup} {K : CupKind} {p : Addr} (l : L)
    {h h1 : Store (CupObj L)} (hf : a.fillFn = some ⟨K, some p⟩) (hfill : a.fill l h = some h1)
    (q : Addr) (hq : q ≠ p) : h1.read q = h.read q := by
  simp only [AnyCup.fill, hf, FillLambda.call] at hfill
  cases hr : h.read p with
  | none => cases K <;> simp [hr] at hfill
  | some o =>
    cases K <;> cases o <;>
      simp [hr, CupObj.asCeramic, CupObj.asPlastic, Store.write] at hfill <;>
      (subst hfill; exact Store.read_set_of_ne _ _ _ _ hq)

theorem AnyCup.getLiquid_congr {a : AnyCup} {K : CupKind} {q : Addr} {h h1 : Store (CupObj L)}
    (hg : a.getLiquidFn = some ⟨K, some q⟩) (hr : h1.read q = h.read q) :
    (a.getLiquid h1 : Option L) = a.getLiquid h := by
  simp [AnyCup.getLiquid, hg, GetLiquidLambda.call, Store.load, hr]

end Sequence

/-- Wrappers constructed in place and never moved or copied.  For every list of cups, each
wrapped by the constructor where it stays, and every liquid `l` with temperature `t`: filling
each wrapper with `l` and reading it, in list order, yields one result per wrapper, in order,
with the colour of `l` and temperature `t - 1.0f` for a ceramic and `t - 10.0f` for a plastic
cup; filling one wrapper leaves what every other wrapper returns unchanged, in every store;
and for ceramic, plastic, plastic at 60.4f the results are 59.4f, 50.4f, 50.4f, each
"black".  The vector of `main` is not such a list: its elements are moved in. -/
theorem heterogeneous_sequence {L : Type} [Liquid L] (cups : List (CupObj L)) (l : L)
    (h : Store (CupObj L)) :
    (fillAndRead l (wrapAll cups h).1 (wrapAll cups h).2).map Prod.fst
      = some (cups.map fun c =>
          (Liquid.getColor l, filledTemperature c.kind (Liquid.temperature l))) ∧
    (∀ (i j : Nat) (a b : AnyCup), (wrapAll cups h).1[i]? = some a →
      (wrapAll cups h).1[j]? = some b → i ≠ j →
      ∀ (l1 : L) (h1 h2 : Store (CupObj L)), a.fill l1 h1 = some h2 →
        (b.getLiquid h2 : Option L) = b.getLiquid h1) ∧
    (fillAndRead (⟨F32.lit 604 10⟩ : Coffee) (wrapAll main_cups Store.empty).1
        (wrapAll main_cups Store.empty).2).map Prod.fst
      = some [("black", F32.lit 594 10), ("black", F32.lit 504 10),
          ("black", F32.lit 504 10)] := by
  refine ⟨fillAndRead_allBound l (wrapAll_allBound cups h), ?_, ?_⟩
  · intro i j a b ha hb hij l1 h1 h2 hfill
    obtain ⟨Ka, -, hfa⟩ := (wrapAll_allBound cups h).closures i a ha
    obtain ⟨Kb, hgb, -⟩ := (wrapAll_allBound cups h).closures j b hb
    refine AnyCup.getLiquid_congr hgb (AnyCup.fill_frame l1 hfa hfill _ ?_)
    intro heq
    exact hij (Nat.add_left_cancel heq).symm
  · rw [fillAndRead_allBound _ (wrapAll_allBound _ _)]
    simp only [main_cups, List.map, CupObj.kind, filledTemperature]
    rw [show Liquid.temperature (⟨F32.lit 604 10⟩ : Coffee) = F32.lit 604 10 from rfl,
      F32.sub_604_1, F32.sub_604_10]
    rfl

theorem heterogeneous_sequence_witness :
    ((⟨some 1, some ⟨.PlasticCup, some 1⟩, some ⟨.PlasticCup, some 1⟩⟩ : AnyCup).getLiquid
        (⟨[some (CupObj.ceramic ⟨⟨F32.lit 594 10⟩⟩), some (CupObj.plastic ⟨⟨F32.finite false 0⟩⟩),
          some (CupObj.plastic ⟨⟨F32.finite false 0⟩⟩)]⟩ : Store (CupObj Coffee)) : Option Coffee)
      = (⟨some 1, some ⟨.PlasticCup, some 1⟩, some ⟨.PlasticCup, some 1⟩⟩ : AnyCup).getLiquid
        (⟨[some (CupObj.ceramic ⟨⟨F32.finite false 0⟩⟩),
          some (CupObj.plastic ⟨⟨F32.finite false 0⟩⟩),
          some (CupObj.plastic ⟨⟨F32.finite false 0⟩⟩)]⟩ : Store (CupObj Coffee)) :=
  (heterogeneous_sequence main_cups (⟨F32.lit 604 10⟩ : Coffee) Store.empty).2.1 0 1
    ⟨some 0, some ⟨.CeramicCup, some 0⟩, some ⟨.CeramicCup, some 0⟩⟩
    ⟨some 1, some ⟨.PlasticCup, some 1⟩, some ⟨.PlasticCup, some 1⟩⟩
    (by decide) (by decide) (by decide) ⟨F32.lit 604 10⟩ _ _ (by decide)

/-! ## Wrappers moved into a vector -/

/-- C9. `main` on a library that keeps a small cup inside the `std::any` and doubles the
vector capacity: after the three `push_back` lines every element holds its cup in one cell
(7, 8, 6) while its closures point at another (0, 2, 5), the cell inside the temporary the
element was first moved from, destroyed with that temporary; that cell holds no object, `fill`
through it has no defined result, and neither has the loop of `main`. -/
theorem moved_wrappers_dangle :
    (main_coffeeCups Impl.smallBuffer Store.empty).map (fun (v, _) =>
        v.elems.map fun e => (e.cup, e.fillFn.bind FillLambda.cupPtr))
      = some [(some 7, some 0), (some 8, some 2), (some 6, some 5)] ∧
    (main_coffeeCups Impl.smallBuffer Store.empty).map (fun (v, h) =>
        v.elems.map fun e => h.load (e.fillFn.bind FillLambda.cupPtr))
      = some [none, none, none] ∧
    (main_coffeeCups Impl.smallBuffer Store.empty).map (fun (v, h) =>
        v.elems.map fun e => e.fill (⟨F32.lit 604 10⟩ : Coffee) h)
      = some [none, none, none] ∧
    main_coffee Impl.smallBuffer = none := by
  decide

/-- With a `std::any` that always allocates separately the moved closures stay valid, and
`main` reads 59.4f, 50.4f and 50.4f, each "black". -/
theorem main_coffee_alwaysAllocate :
    main_coffee Impl.alwaysAllocate
      = some [("black", F32.lit 594 10), ("black", F32.lit 504 10),
          ("black", F32.lit 504 10)] := by
  decide

/-- C7. The sequence `main` builds, on a library that keeps a small cup inside the
`std::any` and doubles the vector capacity: its three elements hold cups of kinds ceramic,
plastic, plastic, so it is a list of the kind the property speaks of, yet it is not the list
of wrappers constructed in place; `fill(Coffee{60.4f})` followed by `getLiquid()` has no
defined result on any of its elements, and filling and reading the elements in order does not
yield 59.4f, 50.4f, 50.4f. -/
theorem main_sequence_undefined :
    (main_coffeeCups Impl.smallBuffer Store.empty).map (fun (v, h) =>
        v.elems.map fun e => (h.load e.cup).map CupObj.kind)
      = some [some .CeramicCup, some .PlasticCup, some .PlasticCup] ∧
    (main_coffeeCups Impl.smallBuffer Store.empty).map (fun (v, _) => v.elems)
      ≠ some (wrapAll main_cups Store.empty).1 ∧
    (main_coffeeCups Impl.smallBuffer Store.empty).map (fun (v, h) =>
        v.elems.map fun e =>
          (e.fill (⟨F32.lit 604 10⟩ : Coffee) h).bind fun h1 =>
            (e.getLiquid h1 : Option Coffee))
      = some [none, none, none] ∧
    (main_coffeeCups Impl.smallBuffer Store.empty).bind (fun (v, h) =>
        (fillAndRead (⟨F32.lit 604 10⟩ : Coffee) v.elems h).map Prod.fst)
      ≠ some [("black", F32.lit 594 10), ("black", F32.lit 504 10),
          ("black", F32.lit 504 10)] := by
  decide

/-! ## `object_t`: a wrapper used where it was constructed -/

theorem object_t.ctor_alloc (x : Val) (h : Store Val) :
    object_t.ctor x h =
      ({ self_ := some h.cells.length, draw_ := some ⟨x.type, some h.cells.length⟩ },
        (h.alloc x).2) := by
  have hr : (h.alloc x).2.read h.cells.length = some x := Store.read_alloc_self h x
  have hl : (h.alloc x).1 = h.cells.length := rfl
  simp [object_t.ctor, any_cast_T, hl, hr]

theorem draw_of_read (fuel : Nat) {h : Store Val} {o : object_t} {p : Addr} {x : Val}
    (hd : o.draw_ = some ⟨x.type, some p⟩) (hr : h.read p = some x) (out : String)
    (position : Nat) : draw (fuel + 1) h o out position = drawVal fuel h x out position := by
  cases x <;> simp [draw, hd, Store.load, hr, Val.type, drawVal]

theorem draw_ctor (fuel : Nat) (x : Val) (h : Store Val) (out : String) (position : Nat) :
    draw (fuel + 1) (object_t.ctor x h).2 (object_t.ctor x h).1 out position
      = drawVal fuel (object_t.ctor x h).2 x out position := by
  rw [object_t.ctor_alloc]
  exact draw_of_read fuel rfl (Store.read_alloc_self h x) out position

/-- What `draw` writes for an object depends on the object's closure only. -/
theorem draw_congr (fuel : Nat) (h : Store Val) {e e1 : object_t} (hd : e1.draw_ = e.draw_)
    (out : String) (position : Nat) : draw fuel h e1 out position = draw fuel h e out position := by
  cases fuel with
  | zero => rfl
  | succ fuel => simp only [draw, hd]

theorem draw_elements_congr (fuel : Nat) (h : Store Val) {d d1 : document_t}
    (hd : d1.map object_t.draw_ = d.map object_t.draw_) (out : String) (position : Nat) :
    draw_elements (draw fuel h) d1 out position = draw_elements (draw fuel h) d out position := by
  induction d1 generalizing d out with
  | nil =>
    cases d with
    | nil => rfl
    | cons e es => simp at hd
  | cons e1 es1 ih =>
    cases d with
    | nil => simp at hd
    | cons e es =>
      simp only [List.map_cons, List.cons.injEq] at hd
      simp only [draw_elements, draw_congr fuel h hd.1]
      congr 1
      funext out1
      exact ih hd.2 out1

/-! ### Writing appends -/

theorem draw_elements_append {f : object_t → String → Nat → Option String}
    (hf : ∀ e out position, f e out position = (f e "" position).map fun s => out ++ s)
    (es : document_t) (out : String) (position : Nat) :
    draw_elements f es out position
      = (draw_elements f es "" position).map fun s => out ++ s := by
  induction es generalizing out with
  | nil => simp [draw_elements]
  | cons e es ih =>
    simp only [draw_elements]
    rw [hf e out]
    cases hfe : f e "" (position + 2) with
    | none => simp
    | some s =>
      simp only [Option.map_some', Option.some_bind]
      rw [ih (out ++ s), ih s]
      cases draw_elements f es "" position with
      | none => simp
      | some s1 => simp [String.append_assoc]

theorem draw_document_t_append {f : object_t → String → Nat → Option String}
    (hf : ∀ e out position, f e out position = (f e "" position).map fun s => out ++ s)
    (x : document_t) (out : String) (position : Nat) :
    draw_document_t f x out position
      = (draw_document_t f x "" position).map fun s => out ++ s := by
  simp only [draw_document_t]
  rw [draw_elements_append hf x (out ++ spaces position ++ "<document>" ++ "\n"),
    draw_elements_append hf x ("" ++ spaces position ++ "<document>" ++ "\n")]
  cases draw_elements f x "" position with
  | none => simp
  | some s => simp [String.append_assoc]

theorem draw_append (fuel : Nat) (h : Store Val) (x : object_t) (out : String) (position : Nat) :
    draw fuel h x out position = (draw fuel h x "" position).map fun s => out ++ s := by
  induction fuel generalizing x out position with
  | zero => rfl
  | succ fuel ih =>
    obtain ⟨slot, d⟩ := x
    rcases d with _ | ⟨T, ptr⟩
    · rfl
    · simp only [draw]
      generalize h.load ptr = ov
      cases T <;> rcases ov with _ | v <;> try rfl
      all_goals cases v <;>
        first
        | rfl
        | exact draw_document_t_append (fun e o q => ih e o q) _ out position
        | simp [draw_int, draw_string, draw_my_class_t, String.append_assoc]

theorem drawVal_append (fuel : Nat) (h : Store Val) (x : Val) (out : String) (position : Nat) :
    drawVal fuel h x out position = (drawVal fuel h x "" position).map fun s => out ++ s := by
  cases x with
  | document_t d => exact draw_document_t_append (fun e o q => draw_append fuel h e o q) d out position
  | _ => simp [drawVal, draw_int, draw_string, draw_my_class_t, String.append_assoc]

/-! ### Copies keep the closures -/

theorem object_t.copyCtor_draw_ (fuel : Nat) (src : object_t) (h : Store Val) (o : object_t)
    (h1 : Store Val) (hc : object_t.copyCtor fuel src h = some (o, h1)) :
    o.draw_ = src.draw_ := by
  cases fuel with
  | zero => simp [object_t.copyCtor] at hc
  | succ fuel =>
    simp only [object_t.copyCtor] at hc
    split at hc
    · simp only [Option.some.injEq, Prod.mk.injEq] at hc
      rw [← hc.1]
    · split at hc
      · simp at hc
      · simp only [Option.map_eq_some'] at hc
        obtain ⟨⟨d1, h2⟩, -, hc⟩ := hc
        simp only [Store.alloc, Prod.mk.injEq] at hc
        rw [← hc.1]
      · simp only [Store.alloc, Option.some.injEq, Prod.mk.injEq] at hc
        rw [← hc.1]

theorem copy_elements_draw_ {copy_e : object_t → Store Val → Option (object_t × Store Val)}
    (hcopy : ∀ e h o h1, copy_e e h = some (o, h1) → o.draw_ = e.draw_)
    (d : document_t) (h : Store Val) (d1 : document_t) (h1 : Store Val)
    (hc : copy_elements copy_e d h = some (d1, h1)) :
    d1.map object_t.draw_ = d.map object_t.draw_ := by
  induction d generalizing h d1 h1 with
  | nil =>
    simp only [copy_elements, Option.some.injEq, Prod.mk.injEq] at hc
    rw [← hc.1]
  | cons e es ih =>
    simp only [copy_elements, Option.bind_eq_some, Option.map_eq_some'] at hc
    obtain ⟨⟨e1, h2⟩, he, ⟨es1, h3⟩, hes, hc⟩ := hc
    simp only [Prod.mk.injEq] at hc
    rw [← hc.1, List.map_cons, List.map_cons, hcopy e h e1 h2 he, ih h2 es1 h3 hes]

theorem Val.copy_draw (fuel0 : Nat) (arg x : Val) (h h1 : Store Val)
    (hc : Val.copy fuel0 arg h = some (x, h1)) (fuel : Nat) (h2 : Store Val) (out : String)
    (position : Nat) : drawVal fuel h2 x out position = drawVal fuel h2 arg out position := by
  cases arg with
  | document_t d =>
    simp only [Val.copy, Option.map_eq_some'] at hc
    obtain ⟨⟨d1, h3⟩, hd, hc⟩ := hc
    simp only [Prod.mk.injEq] at hc
    rw [← hc.1]
    simp only [drawVal, draw_document_t]
    rw [draw_elements_congr fuel h2
      (copy_elements_draw_ (object_t.copyCtor_draw_ fuel0) d h d1 h3 hd)]
  | int v => simp only [Val.copy, Option.some.injEq, Prod.mk.injEq] at hc; rw [← hc.1]
  | string v => simp only [Val.copy, Option.some.injEq, Prod.mk.injEq] at hc; rw [← hc.1]
  | my_class_t v => simp only [Val.copy, Option.some.injEq, Prod.mk.injEq] at hc; rw [← hc.1]

/-- C8. For every value `x` of a drawable type, every store, stream contents `out` and
position: `draw` on `object_t(x)` returns what `draw` on `x` returns, which is `out` followed
by the characters `draw` on `x` writes to an empty stream; for an `int` and a `std::string`
these are the spaces, the printed value and a newline, for a `my_class_t` the spaces,
"my_class_t" and a newline, for a document the document rendering; and the same holds when
the parameter `x` is a copy of the argument. -/
theorem object_t_invoke_transparent :
    (∀ (x : Val) (h : Store Val) (fuel : Nat) (out : String) (position : Nat),
      draw (fuel + 1) (object_t.ctor x h).2 (object_t.ctor x h).1 out position
          = drawVal fuel (object_t.ctor x h).2 x out position ∧
        draw (fuel + 1) (object_t.ctor x h).2 (object_t.ctor x h).1 out position
          = (drawVal fuel (object_t.ctor x h).2 x "" position).map fun s => out ++ s) ∧
    (∀ (i : Int) (h : Store Val) (fuel : Nat) (out : String) (position : Nat),
      draw (fuel + 1) (object_t.ctor (.int i) h).2 (object_t.ctor (.int i) h).1 out position
        = some (out ++ spaces position ++ toString i ++ "\n")) ∧
    (∀ (s : String) (h : Store Val) (fuel : Nat) (out : String) (position : Nat),
      draw (fuel + 1) (object_t.ctor (.string s) h).2 (object_t.ctor (.string s) h).1 out
          position
        = some (out ++ spaces position ++ s ++ "\n")) ∧
    (∀ (c : my_class_t) (h : Store Val) (fuel : Nat) (out : String) (position : Nat),
      draw (fuel + 1) (object_t.ctor (.my_class_t c) h).2 (object_t.ctor (.my_class_t c) h).1
          out position
        = some (out ++ spaces position ++ "my_class_t" ++ "\n")) ∧
    (∀ (d : document_t) (h : Store Val) (fuel : Nat) (out : String) (position : Nat),
      draw (fuel + 1) (object_t.ctor (.document_t d) h).2 (object_t.ctor (.document_t d) h).1
          out position
        = draw_document_t (draw fuel (object_t.ctor (.document_t d) h).2) d out position) ∧
    (∀ (fuel0 : Nat) (arg x : Val) (h h1 : Store Val), Val.copy fuel0 arg h = some (x, h1) →
      ∀ (fuel : Nat) (out : String) (position : Nat),
        draw (fuel + 1) (object_t.ctor x h1).2 (object_t.ctor x h1).1 out position
          = drawVal fuel (object_t.ctor x h1).2 arg out position) := by
  refine ⟨fun x h fuel out position => ⟨draw_ctor fuel x h out position, ?_⟩,
    fun i h fuel out position => draw_ctor fuel (.int i) h out position,
    fun s h fuel out position => draw_ctor fuel (.string s) h out position,
    fun c h fuel out position => draw_ctor fuel (.my_class_t c) h out position,
    fun d h fuel out position => draw_ctor fuel (.document_t d) h out position, ?_⟩
  · rw [draw_ctor, drawVal_append]
  · intro fuel0 arg x h h1 hc fuel out position
    rw [draw_ctor, Val.copy_draw fuel0 arg x h h1 hc]

theorem object_t_invoke_transparent_witness :
    draw 2
        (object_t.ctor
          (.document_t [⟨some 2, some ⟨.int, some 0⟩⟩, ⟨some 3, some ⟨.string, some 1⟩⟩])
          ⟨[some (.int 0), some (.string "Hello!"), some (.int 0), some (.string "Hello!")]⟩).2
        (object_t.ctor
          (.document_t [⟨some 2, some ⟨.int, some 0⟩⟩, ⟨some 3, some ⟨.string, some 1⟩⟩])
          ⟨[some (.int 0), some (.string "Hello!"), some (.int 0), some (.string "Hello!")]⟩).1
        "" 0
      = drawVal 1
        (object_t.ctor
          (.document_t [⟨some 2, some ⟨.int, some 0⟩⟩, ⟨some 3, some ⟨.string, some 1⟩⟩])
          ⟨[some (.int 0), some (.string "Hello!"), some (.int 0), some (.string "Hello!")]⟩).2
        (.document_t [⟨some 0, some ⟨.int, some 0⟩⟩, ⟨some 1, some ⟨.string, some 1⟩⟩]) "" 0 :=
  object_t_invoke_transparent.2.2.2.2.2 1
    (.document_t [⟨some 0, some ⟨.int, some 0⟩⟩, ⟨some 1, some ⟨.string, some 1⟩⟩])
    (.document_t [⟨some 2, some ⟨.int, some 0⟩⟩, ⟨some 3, some ⟨.string, some 1⟩⟩])
    ⟨[some (.int 0), some (.string "Hello!")]⟩
    ⟨[some (.int 0), some (.string "Hello!"), some (.int 0), some (.string "Hello!")]⟩
    (by decide) 1 "" 0

/-! ## The slot and the closures after construction -/

/-- C3. After `AnyCup<L>(cup)` returns, the `std::any` holds an object of the type of `cup`,
`any_cast` to that type yields the pointer to it, and both closures are set and hold that
pointer and that type; every sequence of `fill` and `getLiquid` calls on the wrapper has a
result and leaves the type of the held object and the result of `any_cast` as they were.
After `object_t(x)` returns, likewise the `std::any` holds an object of the type of `x`,
`any_cast` yields the pointer to it and `draw_` holds that pointer and type; every `draw` on
the wrapper reaches `draw` on the held value, and is defined when `x` is not a document. -/
theorem slot_closure_invariant {L : Type} [Liquid L] (c : CupObj L) (h : Store (CupObj L))
    (x : Val) (hv : Store Val) :
    (∃ p, (AnyCup.ctor c h).1.cup = some p ∧
      ((AnyCup.ctor c h).2.read p).map CupObj.kind = some c.kind ∧
      any_cast c.kind (AnyCup.ctor c h).2 (AnyCup.ctor c h).1.cup = some p ∧
      (AnyCup.ctor c h).1.getLiquidFn = some ⟨c.kind, some p⟩ ∧
      (AnyCup.ctor c h).1.fillFn = some ⟨c.kind, some p⟩ ∧
      ∀ calls : List (CupCall L), ∃ rs h2,
        (AnyCup.ctor c h).1.run calls (AnyCup.ctor c h).2 = some (rs, h2) ∧
        (h2.read p).map CupObj.kind = some c.kind ∧
        any_cast c.kind h2 (AnyCup.ctor c h).1.cup = some p) ∧
    (∃ p, (object_t.ctor x hv).1.self_ = some p ∧
      ((object_t.ctor x hv).2.read p).map Val.type = some x.type ∧
      any_cast_T x.type (object_t.ctor x hv).2 (object_t.ctor x hv).1.self_ = some p ∧
      (object_t.ctor x hv).1.draw_ = some ⟨x.type, some p⟩ ∧
      ∀ (fuel : Nat) (out : String) (position : Nat),
        draw (fuel + 1) (object_t.ctor x hv).2 (object_t.ctor x hv).1 out position
            = drawVal fuel (object_t.ctor x hv).2 x out position ∧
          (x.type ≠ .document_t →
            (draw (fuel + 1) (object_t.ctor x hv).2 (object_t.ctor x hv).1 out
              position).isSome = true)) := by
  constructor
  · have hb := AnyCup.ctor_boundTo c h
    have hcup : (AnyCup.ctor c h).1.cup = some h.cells.length := by rw [AnyCup.ctor_eq]
    refine ⟨h.cells.length, hcup, by rw [hb.2.2]; rfl, ?_, hb.1, hb.2.1, fun calls => ?_⟩
    · rw [hcup]; exact any_cast_of_read hb.2.2
    · obtain ⟨rs, h2, o1, hrun, hb1, hk⟩ := AnyCup.run_of_boundTo calls hb
      refine ⟨rs, h2, hrun, by rw [hb1.2.2]; exact congrArg some hk, ?_⟩
      rw [hcup, ← hk]
      exact any_cast_of_read hb1.2.2
  · have hr : (hv.alloc x).2.read hv.cells.length = some x := Store.read_alloc_self hv x
    rw [object_t.ctor_alloc]
    refine ⟨hv.cells.length, rfl, by rw [hr]; rfl, by simp [any_cast_T, hr], rfl,
      fun fuel out position => ?_⟩
    have hd := draw_of_read fuel (o := ⟨some hv.cells.length, some ⟨x.type, some hv.cells.length⟩⟩)
      rfl hr out position
    refine ⟨hd, fun hx => ?_⟩
    rw [hd]
    cases x with
    | document_t d => exact absurd rfl hx
    | _ => rfl

theorem slot_closure_invariant_witness :
    (draw 1 (object_t.ctor (.int 0) Store.empty).2 (object_t.ctor (.int 0) Store.empty).1 ""
      2).isSome = true :=
  ((slot_closure_invariant (CupObj.ceramic (⟨⟨F32.finite false 0⟩⟩ : CeramicCup Coffee))
    Store.empty (.int 0) Store.empty).2.elim fun _ hp => (hp.2.2.2.2 0 "" 2).2) (by decide)

/-! ## `example1` -/

/-- The rendering of a document: the opening tag at `position`, the elements in order at
`position + 2`, the closing tag at `position`. -/
theorem draw_document_t_eq (draw_e : object_t → String → Nat → Option String)
    (x : document_t) (out : String) (position : Nat) :
    draw_document_t draw_e x out position
      = (x.foldlM (fun o e => draw_e e o (position + 2))
          (out ++ spaces position ++ "<document>" ++ "\n")).map
        fun o => o ++ spaces position ++ "</document>" ++ "\n" := by
  simp only [draw_document_t]
  congr 1
  generalize out ++ spaces position ++ "<document>" ++ "\n" = o
  induction x generalizing o with
  | nil => rfl
  | cons e es ih =>
    simp only [draw_elements, List.foldlM_cons]
    cases draw_e e o (position + 2) with
    | none => rfl
    | some o1 => exact ih o1

/-- C10. `example1` on a library whose `std::any` keeps an `int` inside itself and whose
vector starts at capacity one and doubles: after the four `emplace_back` lines the closure of
the first element still points at cell 0, inside the first buffer, released when the second
element was appended, while the `int` now lives in cell 6; the copies inside the nested
document point at cells 0 and 1 of the outer elements; and `draw(document, cout, 0)` has
no defined result, however deep the nesting followed. -/
theorem example1_reads_released_storage :
    (∀ fuel, example1 Impl.pointerSized fuel = none) ∧
    (∀ fuel, (example1_document Impl.pointerSized (fuel + 1)).map (fun (document, h) =>
        (document.elems.map fun e => (e.self_, e.draw_.bind DrawLambda.self__),
          h.read 0, h.read 5))
      = some ([(some 6, some 0), (some 1, some 1), (some 5, some 5), (some 7, some 7)], none,
          some (.document_t
            [⟨some 3, some ⟨.int, some 0⟩⟩, ⟨some 4, some ⟨.string, some 1⟩⟩]))) := by
  constructor
  · intro fuel
    cases fuel with
    | zero => decide
    | succ fuel => rfl
  · intro fuel
    rfl

/-- With a `std::any` that always allocates separately the pointers stay valid and
`example1` writes the nine lines. -/
theorem example1_separate (fuel : Nat) :
    example1 Impl.separate (fuel + 2) = some example1_expected := by
  rfl

end TypeErasure
